import Mathlib

set_option maxRecDepth 100000

/-!
Verification of the schema-to-ABI compiler and UID calculator of the
rep-attestation-tools repository, as a shallow embedding in Lean 4.

Conventions of the embedding:
* machine words are `Nat` with explicit masking by `2^64` where overflow matters;
* JavaScript strings are Lean `String` values; where universal reasoning over
  strings is needed, the primitives (`startsWith`, `split`, `toLowerCase`) are
  modelled on the underlying `List Char`;
* dynamic JSON values are the inductive `Json` below; JS member access that can
  yield `undefined` becomes `Option Json`;
* fallible operations return `Option` / `Except`;
* the process-wide external-schema cache and the disk are explicit values
  (`GenState`, `SchemaFs`) threaded through the functions that use them.
-/

/-! ## Keccak-256 (the 256-bit hash used by ethers.keccak256)

Lanes are 64-bit words stored as `Nat` (masked to 64 bits); the state is the
standard 5×5 lane matrix flattened as index `x + 5*y`. -/

def u64mask : Nat := 0xFFFFFFFFFFFFFFFF

/-- 64-bit left rotation on `Nat` (input assumed < 2^64, `n < 64`). -/
def rotl64 (x n : Nat) : Nat := ((x <<< n) ||| (x >>> (64 - n))) &&& u64mask

/-- Lane `(x, y)` of a flattened Keccak state. -/
def lane (st : List Nat) (x y : Nat) : Nat := st.getD (x + 5 * y) 0

/-- Keccak θ step. -/
def theta (st : List Nat) : List Nat :=
  let c := (List.range 5).map fun x =>
    lane st x 0 ^^^ lane st x 1 ^^^ lane st x 2 ^^^ lane st x 3 ^^^ lane st x 4
  let d := (List.range 5).map fun x =>
    c.getD ((x + 4) % 5) 0 ^^^ rotl64 (c.getD ((x + 1) % 5) 0) 1
  (List.range 25).map fun l => st.getD l 0 ^^^ d.getD (l % 5) 0

/-- Rotation offsets for the ρ step, one row per `y`, indexed by `x + 5*y`
after joining the rows. -/
def rhoRows : List (List Nat) :=
  [[0, 1, 62, 28, 27],
   [36, 44, 6, 55, 20],
   [3, 10, 43, 25, 39],
   [41, 45, 15, 21, 8],
   [18, 2, 61, 56, 14]]

/-- Rotation offsets for the ρ step, flattened as index `x + 5*y`. -/
def rhoOffsets : List Nat := rhoRows.join

/-- Combined ρ and π steps: target lane `(x', y')` receives the rotation of
source lane `(x' + 3y' mod 5, x')`. -/
def rhoPi (st : List Nat) : List Nat :=
  (List.range 25).map fun t =>
    let xp := t % 5
    let yp := t / 5
    let x := (xp + 3 * yp) % 5
    let y := xp
    rotl64 (lane st x y) (rhoOffsets.getD (x + 5 * y) 0)

/-- Keccak χ step (`~b` is modelled as `b ^^^ u64mask`). -/
def chi (st : List Nat) : List Nat :=
  (List.range 25).map fun t =>
    let x := t % 5
    let y := t / 5
    lane st x y ^^^ ((lane st ((x + 1) % 5) y ^^^ u64mask) &&& lane st ((x + 2) % 5) y)

/-- The 24 round constants of Keccak-f[1600] (leading zeroes omitted). -/
def iotaRCs : List Nat :=
  [0x1, 0x8082, 0x800000000000808a,
   0x8000000080008000, 0x808b, 0x80000001,
   0x8000000080008081, 0x8000000000008009, 0x8a,
   0x88, 0x80008009, 0x8000000a,
   0x8000808b, 0x800000000000008b, 0x8000000000008089,
   0x8000000000008003, 0x8000000000008002, 0x8000000000000080,
   0x800a, 0x800000008000000a, 0x8000000080008081,
   0x8000000000008080, 0x80000001, 0x8000000080008008]

/-- One Keccak round: θ, ρ+π, χ, then ι (xor the round constant into lane 0). -/
def keccakRound (st : List Nat) (rc : Nat) : List Nat :=
  match chi (rhoPi (theta st)) with
  | a :: rest => (a ^^^ rc) :: rest
  | [] => []

/-- The Keccak-f[1600] permutation. -/
def keccakF (st : List Nat) : List Nat := iotaRCs.foldl keccakRound st

/-- Load the little-endian 64-bit lane starting at byte offset `off`. -/
def loadLane (bytes : List Nat) (off : Nat) : Nat :=
  (List.range 8).foldl (fun acc k => acc ||| (bytes.getD (off + k) 0 <<< (8 * k))) 0

/-- Absorb one 136-byte (rate of Keccak-256) block and permute. -/
def absorbBlock (st : List Nat) (block : List Nat) : List Nat :=
  keccakF ((List.range 25).map fun l =>
    if l < 17 then st.getD l 0 ^^^ loadLane block (8 * l) else st.getD l 0)

/-- Keccak-256 of a byte sequence (bytes as `Nat` < 256), as 32 output bytes.
Uses the original Keccak `0x01` padding (not the NIST SHA-3 `0x06`). -/
def keccak256Bytes (msg : List Nat) : List Nat :=
  let padLen := 136 - msg.length % 136
  let padded := msg ++ (if padLen = 1 then [0x81] else
    0x01 :: (List.replicate (padLen - 2) 0 ++ [0x80]))
  let nBlocks := padded.length / 136
  let final := (List.range nBlocks).foldl
    (fun st i => absorbBlock st ((padded.drop (136 * i)).take 136))
    (List.replicate 25 0)
  (List.range 32).map fun i => (final.getD (i / 8) 0 >>> (8 * (i % 8))) &&& 0xFF

/-- Lowercase hex digit for a value < 16. -/
def hexDigitChar (n : Nat) : Char :=
  if n < 10 then Char.ofNat (48 + n) else Char.ofNat (87 + n)

/-- Two lowercase hex digits of one byte. -/
def byteToHex (b : Nat) : List Char := [hexDigitChar (b / 16), hexDigitChar (b % 16)]

/-- Lowercase hex string of a byte sequence. -/
def bytesToHex (bs : List Nat) : String :=
  String.mk (bs.foldr (fun b acc => byteToHex b ++ acc) [])

/-- `ethers.keccak256`: 0x-prefixed lowercase hex digest of the input bytes. -/
def keccak256Hex (msg : List Nat) : String := "0x" ++ bytesToHex (keccak256Bytes msg)

/-! ## UTF-8 encoding (`ethers.toUtf8Bytes` / packing of `string` values) -/

/-- UTF-8 encoding of one character, as bytes. -/
def utf8Bytes (c : Char) : List Nat :=
  let n := c.toNat
  if n < 0x80 then [n]
  else if n < 0x800 then [0xC0 ||| (n >>> 6), 0x80 ||| (n &&& 0x3F)]
  else if n < 0x10000 then
    [0xE0 ||| (n >>> 12), 0x80 ||| ((n >>> 6) &&& 0x3F), 0x80 ||| (n &&& 0x3F)]
  else
    [0xF0 ||| (n >>> 18), 0x80 ||| ((n >>> 12) &&& 0x3F),
     0x80 ||| ((n >>> 6) &&& 0x3F), 0x80 ||| (n &&& 0x3F)]

/-- UTF-8 bytes of a string. -/
def strUtf8 (s : String) : List Nat := s.data.foldr (fun c acc => utf8Bytes c ++ acc) []

-- Sanity check of the hash core on the standard Keccak-256 empty-input digest.
example : keccak256Hex (strUtf8 "") =
    "0xc5d2460186f7233c927e7db2dcc703c0e500b653ca82273b7bfad8045d85a470" := by decide

/-! ## JavaScript string primitives used by the tools

JS strings are modelled as Lean `String`; `startsWith` and single-character
`split` are defined on the underlying character list so that universal
statements about them can be proved. -/

/-- JS `s.startsWith(pre)`. -/
def jsStartsWith (s pre : String) : Bool := pre.data.isPrefixOf s.data

/-- JS `s.split(sep)` for a one-character separator (the only kind used by the
repository: `:`, `/`, `#`). `""` splits to `[""]`, separators at the ends
produce empty pieces, exactly as in JS. -/
def splitChar (sep : Char) : List Char → List (List Char)
  | [] => [[]]
  | c :: rest =>
    let r := splitChar sep rest
    if c == sep then [] :: r
    else
      match r with
      | h :: t => (c :: h) :: t
      | [] => [[c]]

/-- JS `parts.join(sep)` for a one-character separator. -/
def joinChar (sep : Char) : List (List Char) → List Char
  | [] => []
  | [x] => x
  | x :: y :: t => x ++ sep :: joinChar sep (y :: t)

/-- JS `s.toLowerCase()` (ASCII case mapping; the repository only lowercases
ASCII hosts, addresses and type names). -/
def strToLower (s : String) : String := String.mk (s.data.map Char.toLower)

/-! ## UID calculators (utils/easTools.ts and utils/basTools.ts) -/

/-- Numeric value of one hex digit. -/
def hexDigitVal (c : Char) : Option Nat :=
  if '0' ≤ c ∧ c ≤ '9' then some (c.toNat - 48)
  else if 'a' ≤ c ∧ c ≤ 'f' then some (c.toNat - 87)
  else if 'A' ≤ c ∧ c ≤ 'F' then some (c.toNat - 55)
  else none

/-- Parse an even-length hex digit sequence into bytes. -/
def parseHexBytes : List Char → Option (List Nat)
  | [] => some []
  | [_] => none
  | c₁ :: c₂ :: rest =>
    match hexDigitVal c₁, hexDigitVal c₂, parseHexBytes rest with
    | some h, some l, some bs => some ((16 * h + l) :: bs)
    | _, _, _ => none

/-- The 20 bytes of a `0x`-prefixed 40-hex-digit address string. `ethers`
additionally validates the EIP-55 checksum of mixed-case addresses; the model
accepts any case, which agrees with `ethers` on all checksum-valid inputs. -/
def parseAddress (s : String) : Option (List Nat) :=
  match s.data with
  | '0' :: 'x' :: rest => if rest.length = 40 then parseHexBytes rest else none
  | _ => none

namespace EasTools

/-- `calculateSchemaUID` of utils/easTools.ts (Variant A):
`keccak256(solidityPacked(["string","address","bool"], [schema, resolverAddress,
revocable]))` — the tight concatenation of the schema string's UTF-8 bytes, the
20 raw address bytes and one boolean byte, hashed with Keccak-256. `none`
models the exception `solidityPacked` throws on an unparseable address. -/
def calculateSchemaUID (schema resolverAddress : String) (revocable : Bool) :
    Option String :=
  (parseAddress resolverAddress).map fun addr =>
    keccak256Hex (strUtf8 schema ++ addr ++ [if revocable then 1 else 0])

end EasTools

namespace BasTools

/-- `calculateSchemaUID` of utils/basTools.ts (Variant B):
`keccak256(toUtf8Bytes(schema))` — the resolver address and the revocable flag
are accepted but not hashed. -/
def calculateSchemaUID (schema resolverAddress : String) (revocable : Bool) :
    String :=
  keccak256Hex (strUtf8 schema)

end BasTools

/-- `formatSchemaUID`, identical in utils/easTools.ts and utils/basTools.ts:
empty input maps to the empty string; otherwise the `0x` prefix is added
exactly when missing. -/
def formatSchemaUID (schemaUID : String) : String :=
  if schemaUID = "" then ""
  else if jsStartsWith schemaUID "0x" then schemaUID
  else "0x" ++ schemaUID

/-! ## DID index derivation (utils/did-utils.ts) -/

/-- `canonicalizeDID`: validates the `did:` scheme and part count, then
lowercases the method-specific part of the DID. `Except.error` models the
thrown `Error`. -/
def canonicalizeDID (did : String) : Except String String :=
  if jsStartsWith did "did:" = false then
    Except.error "Invalid DID format: must start with did:"
  else
    let parts := splitChar ':' did.data
    if parts.length < 3 then Except.error "Invalid DID format: insufficient parts"
    else
      let method := parts.getD 1 []
      if method = "web".data then
        let hostAndPath := joinChar ':' (parts.drop 2)
        let segs := splitChar '/' hostAndPath
        let host := segs.getD 0 []
        let pathParts := segs.drop 1
        let path := if pathParts.length > 0 then '/' :: joinChar '/' pathParts else []
        Except.ok (String.mk ("did:web:".data ++ host.map Char.toLower ++ path))
      else if method = "pkh".data then
        if parts.length ≠ 5 then
          Except.error "Invalid did:pkh format: must have 5 parts"
        else
          Except.ok (String.mk ("did:pkh:".data ++ parts.getD 2 [] ++ [':'] ++
            parts.getD 3 [] ++ [':'] ++ (parts.getD 4 []).map Char.toLower))
      else
        Except.ok (strToLower did)

/-- `computeDidHash`: Keccak-256 of the canonicalized DID's UTF-8 bytes. -/
def computeDidHash (did : String) : Except String String :=
  match canonicalizeDID did with
  | Except.error e => Except.error e
  | Except.ok canonicalDid => Except.ok (keccak256Hex (strUtf8 canonicalDid))

/-- `computeDidIndex`: hash of the domain-separation string concatenated with
the DID hash's hex digits, truncated to the low-order 20 bytes. -/
def computeDidIndex (didHash : String) : String :=
  let combined := "DID:Solidity:Address:v1:" ++ String.mk (didHash.data.drop 2)
  let h := keccak256Hex (strUtf8 combined)
  "0x" ++ String.mk (h.data.drop (h.data.length - 40))

/-- `didToIndexAddress = computeDidIndex ∘ computeDidHash` (errors propagate). -/
def didToIndexAddress (did : String) : Except String String :=
  match computeDidHash did with
  | Except.error e => Except.error e
  | Except.ok didHash => Except.ok (computeDidIndex didHash)

/-- `true` exactly on `Except.ok` (the call returned instead of throwing). -/
def exceptIsOk {ε α : Type} : Except ε α → Bool
  | Except.ok _ => true
  | Except.error _ => false

/-! ## Dynamic JSON values

Parsed JSON documents (schema files and every node inside them) are dynamic
values in the TypeScript source; `Json` models them. JS objects preserve key
insertion order, modelled by the field list's order. A JS member access that
can yield `undefined` becomes an `Option Json`. -/

inductive Json where
  | null
  | bool (b : Bool)
  | num (n : Int)
  | str (s : String)
  | arr (elts : List Json)
  | obj (fields : List (String × Json))

/-- JS truthiness of a JSON value (`NaN` does not occur in parsed JSON). -/
def Json.truthy : Json → Bool
  | .null => false
  | .bool b => b
  | .num n => !(n == 0)
  | .str s => !(s == "")
  | .arr _ => true
  | .obj _ => true

/-- Member access `j[k]`, `undefined` as `none`. Own properties only: the JS
prototype chain (e.g. `"toString" in anyObject`) is not modelled — no schema
key reachable from the tools collides with a prototype member. -/
def Json.get? : Json → String → Option Json
  | .obj fields, k => (fields.find? (fun kv => kv.1 == k)).map (fun kv => kv.2)
  | _, _ => none

/-- Truthiness of a possibly-`undefined` value. -/
def optTruthy (o : Option Json) : Bool :=
  match o with
  | some j => j.truthy
  | none => false

/-- JS strict equality `j === "lit"` of a JSON value with a string literal. -/
def Json.isStr (j : Json) (lit : String) : Bool :=
  match j with
  | .str s => s == lit
  | _ => false

/-- Decimal digits of a natural number (`fuel` bounds the recursion and is
always taken `> n`). -/
def natDigits : Nat → Nat → List Char
  | 0, _ => []
  | fuel + 1, m =>
    if m < 10 then [Char.ofNat (48 + m)]
    else natDigits fuel (m / 10) ++ [Char.ofNat (48 + m % 10)]

/-- Decimal string of a natural number. -/
def natToDecimalString (n : Nat) : String := String.mk (natDigits (n + 1) n)

/-- JS `String(x)` coercion, used by `resolveJsonType` on the entries of a
`type` array. Entries are strings in every schema the tools accept; the
coercion of nested arrays is abstracted to the empty-array case. -/
def jsToString (j : Json) : String :=
  match j with
  | .null => "null"
  | .bool b => if b then "true" else "false"
  | .num n => if n < 0 then "-" ++ natToDecimalString (-n).toNat else natToDecimalString n.toNat
  | .str s => s
  | .arr _ => ""
  | .obj _ => "[object Object]"

/-- The JS idiom `l.find(t => t !== "null") || l[0]` applied to the entries of
a nullable type union: first entry that is not the string `"null"`, the first
entry again if that found entry is falsy or if every entry is `"null"`. -/
def jsNonNullFirst (l : List Json) : Option Json :=
  match l.find? (fun t => !(t.isStr "null")) with
  | some x => if x.truthy then some x else l.head?
  | none => l.head?

/-! ## External schema loading and `$ref` resolution
(generate-bas-object.ts / generate-eas-object.ts, the `$ref`-aware version;
the two copies in the repository are textually identical)

Disk and `path.resolve` are explicit parameters (`Env`); the process-wide
`schemaCache` and the running count of `readFileSync` calls are explicit state
(`GenState`). -/

/-- What the disk holds at a resolved path: nothing, a file that is not valid
JSON, or a file parsing to a document. -/
inductive FileState where
  | missing
  | invalid
  | valid (doc : Json)

/-- The ambient file system: `resolve` models `path.resolve baseDir p`,
`fs` the content found at a resolved path. -/
structure Env where
  resolve : String → String → String
  fs : String → FileState

/-- The mutable module state: the `schemaCache` map (keyed by the original
relative path string) and the number of `readFileSync` calls performed. -/
structure GenState where
  cache : List (String × Json)
  reads : Nat

/-- JS `Map.get` (first binding wins; `Map` keys are unique). -/
def cacheFind (cache : List (String × Json)) (k : String) : Option Json :=
  (cache.find? (fun kv => kv.1 == k)).map (fun kv => kv.2)

/-- JS `Map.set`: replace in place or append. -/
def cacheSet (cache : List (String × Json)) (k : String) (v : Json) :
    List (String × Json) :=
  match cache with
  | [] => [(k, v)]
  | kv :: rest => if kv.1 == k then (k, v) :: rest else kv :: cacheSet rest k v

/-- `loadExternalSchema`: serve from cache when present; otherwise check
existence (missing file: warn, `null`, nothing cached), read and parse
(parse failure: warn, `null`, nothing cached; success: cache under the
original relative path and return the document). -/
def loadExternalSchema (env : Env) (schemaPath baseDir : String) (st : GenState) :
    Option Json × GenState :=
  match cacheFind st.cache schemaPath with
  | some cached => (some cached, st)
  | none =>
    let fullPath := env.resolve baseDir schemaPath
    match env.fs fullPath with
    | FileState.missing => (none, st)
    | FileState.invalid => (none, ⟨st.cache, st.reads + 1⟩)
    | FileState.valid doc => (some doc, ⟨cacheSet st.cache schemaPath doc, st.reads + 1⟩)

/-- Canonical array index: the key strings JS counts as `in` an array. -/
def canonicalIndex? (part : List Char) : Option Nat :=
  if part.isEmpty then none
  else if !(part.all fun c => decide ('0' ≤ c ∧ c ≤ '9')) then none
  else if part.headD ' ' == '0' && part.length != 1 then none
  else some (part.foldl (fun a c => 10 * a + (c.toNat - 48)) 0)

/-- `part in current` followed by `current[part]`, for the JSON-pointer walk:
own object keys, and canonical indices of arrays. -/
def jsonMember (j : Json) (key : List Char) : Option Json :=
  match j with
  | Json.obj fields => (fields.find? (fun kv => kv.1.data == key)).map (fun kv => kv.2)
  | Json.arr l =>
    match canonicalIndex? key with
    | some i => l.get? i
    | none => none
  | _ => none

/-- The pointer-walk loop of `resolveRef`: walk the document key by key; a
non-object node or an absent key aborts with `null` (warning). -/
def walkPointer : List (List Char) → Json → Option Json
  | [], current => some current
  | part :: rest, current =>
    if current.truthy then
      match jsonMember current part with
      | some nxt => walkPointer rest nxt
      | none => none
    else none

/-- The local-pointer half of `resolveRef`: require a `#/` prefix (anything
else is an unsupported format, `null`), then walk the `/`-separated parts. -/
def resolvePointer (pointer : List Char) (targetSchema : Json) : Option Json :=
  match pointer with
  | '#' :: '/' :: rest => walkPointer (splitChar '/' rest) targetSchema
  | _ => none

/-- `resolveRef`: classify the ref as external (contains `#`, does not start
with `#`) or local, load the external document through the cache when needed,
then resolve the JSON pointer. -/
def resolveRef (env : Env) (ref : String) (currentSchema : Json) (baseDir : String)
    (st : GenState) : Option Json × GenState :=
  if ref = "" then (none, st)
  else if ref.data.contains '#' && !(jsStartsWith ref "#") then
    let parts := splitChar '#' ref.data
    let filePath := String.mk (parts.getD 0 [])
    let fragment := parts.getD 1 []
    match loadExternalSchema env filePath baseDir st with
    | (none, st₁) => (none, st₁)
    | (some target, st₁) => (resolvePointer ('#' :: fragment) target, st₁)
  else
    (resolvePointer ref.data currentSchema, st)

/-- JS object spread of an arbitrary value, as a field list: objects spread
their fields, strings and arrays their indexed elements, primitives nothing. -/
def Json.spreadFields : Json → List (String × Json)
  | .obj fields => fields
  | .str s =>
    (List.zip (List.range s.data.length) s.data).map fun p =>
      (natToDecimalString p.1, Json.str (String.mk [p.2]))
  | .arr l =>
    (List.zip (List.range l.length) l).map fun p => (natToDecimalString p.1, p.2)
  | _ => []

/-- Setting one key in a field list: override in place, else append (JS object
literals keep the first occurrence's position on override). -/
def objSet (fields : List (String × Json)) (kv : String × Json) :
    List (String × Json) :=
  match fields with
  | [] => [kv]
  | f :: rest => if f.1 == kv.1 then (kv.1, kv.2) :: rest else f :: objSet rest kv

/-- `{...base, ...overrides}` on field lists. -/
def objSpread (base overrides : List (String × Json)) : List (String × Json) :=
  overrides.foldl objSet base

/-- `resolveProperty`: follow a (string) `$ref` when present and truthy; on
success merge the resolved node under the property's other keys (local keys
win, `$ref` dropped); on failure return the property unchanged. A truthy
non-string `$ref` would crash the JS (`ref.includes` unavailable) and is
modelled as the unresolved fall-through. -/
def resolveProperty (env : Env) (prop : Json) (currentSchema : Json)
    (baseDir : String) (st : GenState) : Json × GenState :=
  if prop.truthy = false then (prop, st)
  else
    match prop.get? "$ref" with
    | some (Json.str r) =>
      if r = "" then (prop, st)
      else
        match resolveRef env r currentSchema baseDir st with
        | (some resolved, st₁) =>
          (Json.obj (objSpread resolved.spreadFields
            (prop.spreadFields.filter fun kv => kv.1 ≠ "$ref")), st₁)
        | (none, st₁) => (prop, st₁)
    | _ => (prop, st)

/-! ## Effective-type resolution (the conditional-aware EAS generator;
`pickPriorityType`, `collectTypesFromBranches`, `resolveJsonType`,
`jsonTypeToAbi` appear as textually identical copies in both EAS versions) -/

/-- The fixed conflict-resolution priority for candidate types. -/
def priorityOrder : List String :=
  ["object", "array", "string", "integer", "number", "boolean"]

/-- `pickPriorityType`: first priority entry contained in the candidates, the
first candidate verbatim when none is, `undefined` on no candidates. -/
def pickPriorityType (types : Option (List String)) : Option String :=
  match types with
  | none => none
  | some ts =>
    if ts.length = 0 then none
    else
      match priorityOrder.find? (fun t => ts.contains t) with
      | some t => some t
      | none => ts.head?

/-- The candidate strings contributed by one `type` member (a string, or the
spread entries of an array; `String`-coerced as in `resolveJsonType`). -/
def typeEntryStrings (tj : Option Json) : List String :=
  match tj with
  | some (Json.str t) => [t]
  | some (Json.arr l) => l.map jsToString
  | _ => []

/-- The types of the properties one level inside a branch's `then`/`else`. -/
def branchCondTypes (o : Option Json) : List String :=
  match o with
  | some t =>
    match t.get? "properties" with
    | some (Json.obj props) =>
      props.foldr (fun kv acc => typeEntryStrings (kv.2.get? "type") ++ acc) []
    | _ => []
  | none => []

/-- One branch's contribution to `collectTypesFromBranches`. -/
def branchContribution (b : Json) : List String :=
  typeEntryStrings (b.get? "type")
    ++ branchCondTypes (b.get? "then") ++ branchCondTypes (b.get? "else")

/-- The branch members of an `Array.isArray` composition keyword. -/
def jsArray (o : Option Json) : List Json :=
  match o with
  | some (Json.arr l) => l
  | _ => []

/-- `collectTypesFromBranches`: every `oneOf`, then `anyOf`, then `allOf`
branch contributes its own `type` and the `type`s one level inside its
`then.properties` / `else.properties`. -/
def collectTypesFromBranches (s : Json) : List String :=
  (jsArray (s.get? "oneOf") ++ jsArray (s.get? "anyOf") ++ jsArray (s.get? "allOf")).foldr
    (fun b acc => branchContribution b ++ acc) []

/-- `resolveJsonType`: a direct string `type` lowercased; an array `type`
through `pickPriorityType` of its lowercased entries; otherwise the collected
branch types through `pickPriorityType`; `undefined` when nothing applies. -/
def resolveJsonType (propSchema : Json) : Option String :=
  if propSchema.truthy = false then none
  else
    match propSchema.get? "type" with
    | some (Json.str t) => some (strToLower t)
    | some (Json.arr l) => pickPriorityType (some (l.map fun j => strToLower (jsToString j)))
    | _ =>
      let branchTypes := (collectTypesFromBranches propSchema).map strToLower
      if branchTypes.length ≠ 0 then pickPriorityType (some branchTypes) else none

/-- One hex digit (either case). -/
def isHexDigitChar (c : Char) : Bool :=
  decide (('0' ≤ c ∧ c ≤ '9') ∨ ('a' ≤ c ∧ c ≤ 'f') ∨ ('A' ≤ c ∧ c ≤ 'F'))

/-- Whether the regex `0x[a-fA-F0-9]{64}` matches at the start of `l`. -/
def startsHex64 (l : List Char) : Bool :=
  match l with
  | c₁ :: c₂ :: rest =>
    c₁ == '0' && c₂ == 'x' && 64 ≤ rest.length && (rest.take 64).all isHexDigitChar
  | _ => false

/-- JS `/0x[a-fA-F0-9]{64}/.test`: an unanchored search for a literal `0x`
followed by 64 hex characters. -/
def containsHex64 : List Char → Bool
  | [] => false
  | c :: rest => startsHex64 (c :: rest) || containsHex64 rest

/-- The `ctx.pattern && /0x[a-fA-F0-9]{64}/.test(ctx.pattern)` guard. -/
def patternHasHex64 (pattern : Option String) : Bool :=
  match pattern with
  | some p => !(p == "") && containsHex64 p.data
  | none => false

/-- `jsonTypeToAbi` (EAS generators): explicit `"bytes32"` override first,
then the scalar mapping table with the permissive hash-pattern test on
`string`, and `"string"` as the fallback for everything else. -/
def jsonTypeToAbi (effectiveType : Option String) (propName : String)
    (pattern : Option String) (xAbi : Option String) : String :=
  if xAbi = some "bytes32" then "bytes32"
  else
    match effectiveType.map strToLower with
    | some "object" => "string"
    | some "string" => if patternHasHex64 pattern then "bytes32" else "string"
    | some "integer" => "uint256"
    | some "number" => "uint256"
    | some "boolean" => "bool"
    | _ => "string"

/-- JS falsiness of a `string | undefined` (the `!itemType` check). -/
def strOptFalsy (o : Option String) : Bool :=
  match o with
  | none => true
  | some s => s == ""

/-- The string member named `k`, `undefined` for absent or non-string (the
TS reads `pattern` and `x-oma3-abi` as strings; a non-string value never
equals the compared literals). -/
def Json.getStr? (j : Json) (k : String) : Option String :=
  match j.get? k with
  | some (Json.str s) => some s
  | _ => none

namespace EasGen

/-- `mapJsonSchemaPropertyToAbiType` of the `$ref`-aware EAS generator:
`purpose` carve-out, array handling through item-type resolution (with `$ref`
resolution of `items` when context is supplied), then the scalar table. -/
def mapJsonSchemaPropertyToAbiType (env : Env) (jsonProperty : Json)
    (propName : String) (currentSchema : Option Json) (baseDir : Option String)
    (st : GenState) : Option String × GenState :=
  if propName = "purpose" then (some "string", st)
  else
    let effectiveType := resolveJsonType jsonProperty
    if effectiveType = some "array" then
      match jsonProperty.get? "items" with
      | some it =>
        if it.truthy then
          let (resolvedItems, st₁) :=
            match currentSchema, baseDir with
            | some cs, some bd =>
              if optTruthy (it.get? "$ref") && cs.truthy && !(bd == "") then
                resolveProperty env it cs bd st
              else (it, st)
            | _, _ => (it, st)
          let itemType₀ := if resolvedItems.truthy then resolveJsonType resolvedItems else none
          let itemType :=
            if strOptFalsy itemType₀ && optTruthy (resolvedItems.get? "type") then
              match resolvedItems.get? "type" with
              | some (Json.arr l) => (jsNonNullFirst l).map jsToString
              | some j => some (jsToString j)
              | none => itemType₀
            else itemType₀
          match itemType with
          | some t =>
            if t == "" then (none, st₁)
            else
              let baseAbiType : Option String :=
                match strToLower t with
                | "string" => some "string"
                | "integer" => some "uint256"
                | "number" => some "uint256"
                | "boolean" => some "bool"
                | "object" => some "string"
                | _ => none
              (baseAbiType.map fun b => b ++ "[]", st₁)
          | none => (none, st₁)
        else (none, st)
      | none => (none, st)
    else
      (some (jsonTypeToAbi effectiveType propName (jsonProperty.getStr? "pattern")
        (jsonProperty.getStr? "x-oma3-abi")), st)

/-- `abiFields.join(', ')`. -/
def joinComma : List String → String
  | [] => ""
  | [x] => x
  | x :: y :: t => x ++ ", " ++ joinComma (y :: t)

/-- The exclusion test of `buildSchemaString`:
`skipReason === "metadata" || skipReason === "eas"` on the resolved
property's `x-oma3-skip-reason` member (`"unused"` and every other value,
including absence, fail it and are kept). -/
def isServiceSkip (property : Json) : Bool :=
  match property.get? "x-oma3-skip-reason" with
  | some j => j.isStr "metadata" || j.isStr "eas"
  | none => false

/-- The field loop of `buildSchemaString`: resolve each property's `$ref`,
drop fields whose resolved property carries skip-reason `"metadata"` or
`"eas"`, keep `"unused"` and everything else, map the type, and push
`"<abiType> <key>"` when mapping succeeds. -/
def buildFields (env : Env) (props : List (String × Json)) (currentSchema : Json)
    (baseDir : String) (st : GenState) : List String × GenState :=
  match props with
  | [] => ([], st)
  | (key, rawProperty) :: rest =>
    let (property, st₁) := resolveProperty env rawProperty currentSchema baseDir st
    if isServiceSkip property then
      buildFields env rest currentSchema baseDir st₁
    else
      let (abiType, st₂) := mapJsonSchemaPropertyToAbiType env property key
        (some currentSchema) (some baseDir) st₁
      let (fields, st₃) := buildFields env rest currentSchema baseDir st₂
      (match abiType with
       | some t => (t ++ " " ++ key) :: fields
       | none => fields, st₃)

/-- `buildSchemaString` of the `$ref`-aware EAS generator: `""` for absent
properties, otherwise the joined surviving fields in declaration order. -/
def buildSchemaString (env : Env) (properties : Option (List (String × Json)))
    (currentSchema : Json) (baseDir : String) (st : GenState) : String × GenState :=
  match properties with
  | none => ("", st)
  | some props =>
    let (abiFields, st₁) := buildFields env props currentSchema baseDir st
    (joinComma abiFields, st₁)

/-- Specification-side companion of `buildFields` for the order-preservation
claim: the same traversal, recorded as `(fieldName, abiType)` pairs instead of
preformatted strings. -/
def emittedFields (env : Env) (props : List (String × Json)) (currentSchema : Json)
    (baseDir : String) (st : GenState) : List (String × String) × GenState :=
  match props with
  | [] => ([], st)
  | (key, rawProperty) :: rest =>
    let (property, st₁) := resolveProperty env rawProperty currentSchema baseDir st
    if isServiceSkip property then
      emittedFields env rest currentSchema baseDir st₁
    else
      let (abiType, st₂) := mapJsonSchemaPropertyToAbiType env property key
        (some currentSchema) (some baseDir) st₁
      let (fields, st₃) := emittedFields env rest currentSchema baseDir st₂
      (match abiType with
       | some t => (key, t) :: fields
       | none => fields, st₃)

end EasGen

namespace BasGen

/-- `mapJsonSchemaPropertyToAbiType` of the `$ref`-aware BAS generator: the
nullable-union rule `type.find(t => t !== "null") || type[0]`, array handling,
and a scalar table whose `bytes32` case requires the `pattern` to equal
`^0x[a-fA-F0-9]{64}$` exactly. An empty `type` array would crash the JS
(`undefined.toLowerCase`); it is modelled as the unmappable `""`. -/
def mapJsonSchemaPropertyToAbiType (env : Env) (jsonProperty : Json)
    (propName : String) (currentSchema : Option Json) (baseDir : Option String)
    (st : GenState) : Option String × GenState :=
  let typeToProcess : String :=
    match jsonProperty.get? "type" with
    | some (Json.arr l) =>
      match jsNonNullFirst l with
      | some x => jsToString x
      | none => ""
    | some j => if j.truthy then jsToString j else "string"
    | none => "string"
  let typeLower := strToLower typeToProcess
  if typeLower = "array" then
    match jsonProperty.get? "items" with
    | some it =>
      if it.truthy then
        let (resolvedItems, st₁) :=
          match currentSchema, baseDir with
          | some cs, some bd =>
            if optTruthy (it.get? "$ref") && cs.truthy && !(bd == "") then
              resolveProperty env it cs bd st
            else (it, st)
          | _, _ => (it, st)
        if resolvedItems.truthy && optTruthy (resolvedItems.get? "type") then
          let itemSchemaType : String :=
            match resolvedItems.get? "type" with
            | some (Json.arr l) =>
              match jsNonNullFirst l with
              | some x => jsToString x
              | none => ""
            | some j => jsToString j
            | none => ""
          let baseAbiType : Option String :=
            match strToLower itemSchemaType with
            | "string" => some "string"
            | "integer" => some "uint256"
            | "number" => some "uint256"
            | "boolean" => some "bool"
            | "object" => some "string"
            | _ => none
          (baseAbiType.map fun b => b ++ "[]", st₁)
        else (none, st₁)
      else (none, st)
    | none => (none, st)
  else
    match typeLower with
    | "string" =>
      (some (if jsonProperty.getStr? "pattern" = some "^0x[a-fA-F0-9]{64}$" then
        "bytes32" else "string"), st)
    | "integer" => (some "uint256", st)
    | "number" => (some "uint256", st)
    | "boolean" => (some "bool", st)
    | "object" => (some "string", st)
    | _ => (none, st)

end BasGen

/-- A fixture environment with nothing on disk (properties without `$ref`
never consult it). -/
def emptyEnv : Env := ⟨fun _ _ => "", fun _ => FileState.missing⟩

/-- The state at process start: empty cache, no reads performed. -/
def initialState : GenState := ⟨[], 0⟩

/-- A fixture environment whose disk holds one valid document per path. -/
def constDocEnv : Env := ⟨fun b p => b ++ "/" ++ p, fun _ => FileState.valid (Json.str "doc")⟩

/-! ## Helper lemmas -/

theorem data_append_0x (x : String) : ("0x" ++ x).data = '0' :: 'x' :: x.data := by
  rw [String.data_append]
  rfl

theorem jsStartsWith_0x_append (x : String) : jsStartsWith ("0x" ++ x) "0x" = true := by
  show List.isPrefixOf "0x".data ("0x" ++ x).data = true
  rw [data_append_0x]
  show List.isPrefixOf ['0', 'x'] ('0' :: 'x' :: x.data) = true
  simp [List.isPrefixOf]

theorem append_0x_ne_empty (x : String) : "0x" ++ x ≠ "" := by
  intro h
  have h₂ := congrArg String.data h
  rw [data_append_0x] at h₂
  exact List.noConfusion h₂

theorem contains_eq_decide_mem (l : List String) (a : String) :
    l.contains a = decide (a ∈ l) := by
  by_cases h : a ∈ l
  · simp [List.contains, List.elem_iff.mpr h, h]
  · have he : l.elem a = false := by
      cases he : l.elem a
      · rfl
      · exact absurd (List.elem_iff.mp he) h
    simp [List.contains, he, h]

theorem cacheFind_cacheSet_self (c : List (String × Json)) (k : String) (v : Json) :
    cacheFind (cacheSet c k v) k = some v := by
  induction c with
  | nil => simp [cacheSet, cacheFind, List.find?]
  | cons kv rest ih =>
    by_cases h : kv.1 == k
    · simp [cacheSet, h, cacheFind, List.find?]
    · simp only [cacheSet, h, Bool.false_eq_true, if_false]
      simpa [cacheFind, List.find?, h] using ih

theorem find?_contains_congr (ord ts₁ ts₂ : List String)
    (h : ∀ t ∈ ord, (t ∈ ts₁ ↔ t ∈ ts₂)) :
    ord.find? (fun t => ts₁.contains t) = ord.find? (fun t => ts₂.contains t) := by
  induction ord with
  | nil => rfl
  | cons a rest ih =>
    have hc : ts₁.contains a = ts₂.contains a := by
      rw [contains_eq_decide_mem, contains_eq_decide_mem]
      by_cases h₁ : a ∈ ts₁
      · simp [h₁, (h a (by simp)).mp h₁]
      · have h₂ : a ∉ ts₂ := fun hx => h₁ ((h a (by simp)).mpr hx)
        simp [h₁, h₂]
    rw [List.find?_cons, List.find?_cons, hc]
    cases hca : ts₂.contains a with
    | true => rfl
    | false => exact ih fun t ht => h t (List.mem_cons_of_mem a ht)

theorem startsHex64_iff (l : List Char) : startsHex64 l = true ↔
    ∃ l₂ l₃, l = '0' :: 'x' :: (l₂ ++ l₃) ∧ l₂.length = 64 ∧
      ∀ c ∈ l₂, isHexDigitChar c = true := by
  constructor
  · intro h
    rcases l with _ | ⟨c₁, _ | ⟨c₂, rest⟩⟩
    · exact absurd h (by simp [startsHex64])
    · exact absurd h (by simp [startsHex64])
    · simp only [startsHex64, Bool.and_eq_true, beq_iff_eq, decide_eq_true_eq,
        List.all_eq_true] at h
      obtain ⟨⟨⟨h0, hx⟩, hlen⟩, hall⟩ := h
      subst h0; subst hx
      refine ⟨rest.take 64, rest.drop 64, by rw [List.take_append_drop], ?_, hall⟩
      rw [List.length_take]
      exact Nat.min_eq_left hlen
  · rintro ⟨l₂, l₃, rfl, hlen, hhex⟩
    have ht : (l₂ ++ l₃).take 64 = l₂ := by
      rw [← hlen]
      exact List.take_left l₂ l₃
    simp [startsHex64, List.length_append, hlen, ht, List.all_eq_true, Nat.le_add_right]
    exact hhex

theorem containsHex64_iff (l : List Char) : containsHex64 l = true ↔
    ∃ l₁ l₂ l₃, l = l₁ ++ ('0' :: 'x' :: (l₂ ++ l₃)) ∧ l₂.length = 64 ∧
      ∀ c ∈ l₂, isHexDigitChar c = true := by
  induction l with
  | nil =>
    constructor
    · intro h
      exact absurd h (by simp [containsHex64])
    · rintro ⟨l₁, l₂, l₃, heq, -, -⟩
      cases l₁ <;> exact List.noConfusion heq
  | cons c rest ih =>
    have e : containsHex64 (c :: rest) = (startsHex64 (c :: rest) || containsHex64 rest) := rfl
    constructor
    · intro h
      rw [e] at h
      by_cases hs : startsHex64 (c :: rest) = true
      · obtain ⟨l₂, l₃, heq, hlen, hhex⟩ := (startsHex64_iff (c :: rest)).mp hs
        exact ⟨[], l₂, l₃, heq, hlen, hhex⟩
      · rw [Bool.not_eq_true] at hs
        rw [hs, Bool.false_or] at h
        obtain ⟨l₁, l₂, l₃, heq, hlen, hhex⟩ := ih.mp h
        exact ⟨c :: l₁, l₂, l₃, by rw [List.cons_append, heq], hlen, hhex⟩
    · rintro ⟨l₁, l₂, l₃, heq, hlen, hhex⟩
      rw [e]
      cases l₁ with
      | nil =>
        rw [(startsHex64_iff (c :: rest)).mpr ⟨l₂, l₃, heq, hlen, hhex⟩, Bool.true_or]
      | cons a l₁' =>
        rw [List.cons_append] at heq
        injection heq with h₁ h₂
        rw [ih.mpr ⟨l₁', l₂, l₃, h₂, hlen, hhex⟩, Bool.or_true]

theorem buildFields_eq_emittedFields (env : Env) (props : List (String × Json))
    (cs : Json) (bd : String) (st : GenState) :
    EasGen.buildFields env props cs bd st =
      ((EasGen.emittedFields env props cs bd st).1.map fun e => e.2 ++ " " ++ e.1,
       (EasGen.emittedFields env props cs bd st).2) := by
  induction props generalizing st with
  | nil => rfl
  | cons kv rest ih =>
    obtain ⟨key, raw⟩ := kv
    rcases hR : resolveProperty env raw cs bd st with ⟨property, st₁⟩
    simp only [EasGen.buildFields, EasGen.emittedFields, hR]
    by_cases hskip : EasGen.isServiceSkip property = true
    · simp only [hskip, if_true]
      exact ih st₁
    · rw [Bool.not_eq_true] at hskip
      simp only [hskip, Bool.false_eq_true, if_false]
      rcases hM : EasGen.mapJsonSchemaPropertyToAbiType env property key
        (some cs) (some bd) st₁ with ⟨abiType, st₂⟩
      simp only [hM, ih st₂]
      cases abiType <;> simp

theorem emittedFields_names_sublist (env : Env) (props : List (String × Json))
    (cs : Json) (bd : String) (st : GenState) :
    ((EasGen.emittedFields env props cs bd st).1.map Prod.fst).Sublist
      (props.map Prod.fst) := by
  induction props generalizing st with
  | nil => simp [EasGen.emittedFields]
  | cons kv rest ih =>
    obtain ⟨key, raw⟩ := kv
    rcases hR : resolveProperty env raw cs bd st with ⟨property, st₁⟩
    simp only [EasGen.emittedFields, hR, List.map_cons]
    by_cases hskip : EasGen.isServiceSkip property = true
    · simp only [hskip, if_true]
      exact List.Sublist.cons key (ih st₁)
    · rw [Bool.not_eq_true] at hskip
      simp only [hskip, Bool.false_eq_true, if_false]
      rcases hM : EasGen.mapJsonSchemaPropertyToAbiType env property key
        (some cs) (some bd) st₁ with ⟨abiType, st₂⟩
      simp only [hM]
      cases abiType with
      | none => exact List.Sublist.cons key (ih st₂)
      | some t =>
        simp only [List.map_cons]
        exact List.Sublist.cons₂ key (ih st₂)

theorem emittedFields_not_mem_of_skipped (env : Env) (cs : Json) (bd : String)
    (k : String) (props : List (String × Json)) (st : GenState)
    (hall : ∀ v, (k, v) ∈ props → ∀ st' : GenState,
      EasGen.isServiceSkip (resolveProperty env v cs bd st').1 = true) :
    k ∉ (EasGen.emittedFields env props cs bd st).1.map Prod.fst := by
  induction props generalizing st with
  | nil => simp [EasGen.emittedFields]
  | cons kv rest ih =>
    obtain ⟨key, raw⟩ := kv
    have hall' : ∀ v, (k, v) ∈ rest → ∀ st' : GenState,
        EasGen.isServiceSkip (resolveProperty env v cs bd st').1 = true :=
      fun v hv st' => hall v (List.mem_cons_of_mem _ hv) st'
    rcases hR : resolveProperty env raw cs bd st with ⟨property, st₁⟩
    simp only [EasGen.emittedFields, hR]
    by_cases hk : key = k
    · subst hk
      have hs := hall raw (List.mem_cons_self _ _) st
      rw [hR] at hs
      simp only [hs, if_true]
      exact ih st₁ hall'
    · by_cases hskip : EasGen.isServiceSkip property = true
      · simp only [hskip, if_true]
        exact ih st₁ hall'
      · rw [Bool.not_eq_true] at hskip
        simp only [hskip, Bool.false_eq_true, if_false]
        rcases hM : EasGen.mapJsonSchemaPropertyToAbiType env property key
          (some cs) (some bd) st₁ with ⟨abiType, st₂⟩
        simp only [hM]
        cases abiType with
        | none => exact ih st₂ hall'
        | some t =>
          simp only [List.map_cons, List.mem_cons]
          intro hmem
          rcases hmem with heq | hmem
          · exact hk heq.symm
          · exact ih st₂ hall' hmem

theorem emittedFields_mem_of_unused (env : Env) (cs : Json) (bd : String)
    (k : String) (v : Json)
    (hunused : ∀ st' : GenState,
      ((resolveProperty env v cs bd st').1.get? "x-oma3-skip-reason") =
        some (Json.str "unused"))
    (hmap : ∀ st' : GenState,
      (EasGen.mapJsonSchemaPropertyToAbiType env (resolveProperty env v cs bd st').1 k
        (some cs) (some bd) (resolveProperty env v cs bd st').2).1.isSome = true)
    (props : List (String × Json)) (st : GenState) (hv : (k, v) ∈ props) :
    k ∈ (EasGen.emittedFields env props cs bd st).1.map Prod.fst := by
  induction props generalizing st with
  | nil => exact absurd hv (List.not_mem_nil _)
  | cons kv rest ih =>
    obtain ⟨key, raw⟩ := kv
    rcases List.mem_cons.mp hv with heq | htail
    · obtain ⟨hk, hraw⟩ := Prod.mk.injEq .. ▸ heq
      subst hk
      subst hraw
      rcases hR : resolveProperty env v cs bd st with ⟨property, st₁⟩
      have hu := hunused st
      rw [hR] at hu
      have hskip : EasGen.isServiceSkip property = false := by
        simp [EasGen.isServiceSkip, hu, Json.isStr]
      have hm := hmap st
      rw [hR] at hm
      simp only [EasGen.emittedFields, hR, hskip, Bool.false_eq_true, if_false]
      rcases hM : EasGen.mapJsonSchemaPropertyToAbiType env property k
        (some cs) (some bd) st₁ with ⟨abiType, st₂⟩
      rw [hM] at hm
      simp only [hM]
      rcases Option.isSome_iff_exists.mp hm with ⟨t, ht⟩
      subst ht
      simp [List.mem_cons]
    · rcases hR : resolveProperty env raw cs bd st with ⟨property, st₁⟩
      simp only [EasGen.emittedFields, hR]
      by_cases hskip : EasGen.isServiceSkip property = true
      · simp only [hskip, if_true]
        exact ih st₁ htail
      · rw [Bool.not_eq_true] at hskip
        simp only [hskip, Bool.false_eq_true, if_false]
        rcases hM : EasGen.mapJsonSchemaPropertyToAbiType env property key
          (some cs) (some bd) st₁ with ⟨abiType, st₂⟩
        simp only [hM]
        cases abiType with
        | none => exact ih st₂ htail
        | some t =>
          simp only [List.map_cons, List.mem_cons]
          exact Or.inr (ih st₂ htail)

/-! ## Claim theorems -/

/-- C1: Variant A UID calculation: `calculateSchemaUID` (utils/easTools.ts) on
the documented BAS example schema string, the zero resolver address and
`revocable = true` — Keccak-256 of the schema's UTF-8 bytes followed by the 20
raw address bytes and one boolean byte — returns exactly
`0xe97c0fcc6c37e9f782fd9917e3fa6d22ca1b52d8d936002be4babb55e82dadab`. -/
theorem easTools_calculateSchemaUID_reference_value :
    EasTools.calculateSchemaUID
      "uint256 schemaId, string msg5, bool isActive, string[] tags, uint256[] scores, string optionalDescription, bool[] statusFlags"
      "0x0000000000000000000000000000000000000000" true =
    some "0xe97c0fcc6c37e9f782fd9917e3fa6d22ca1b52d8d936002be4babb55e82dadab" := by
  decide

/-- C6: Variant B UID depends only on the schema string: for every schema
string and any two resolver/revocable argument pairs, `calculateSchemaUID`
(utils/basTools.ts) returns the same value, namely Keccak-256 of the schema's
UTF-8 bytes alone. -/
theorem basTools_calculateSchemaUID_depends_only_on_schema
    (schema a₁ a₂ : String) (r₁ r₂ : Bool) :
    BasTools.calculateSchemaUID schema a₁ r₁ = BasTools.calculateSchemaUID schema a₂ r₂ ∧
    BasTools.calculateSchemaUID schema a₁ r₁ = keccak256Hex (strUtf8 schema) :=
  ⟨rfl, rfl⟩

/-- C9: `formatSchemaUID` is idempotent, maps `""` to `""`, adds exactly one
`0x` prefix to a string lacking it, and returns a `0x`-prefixed string
byte-identical. -/
theorem formatSchemaUID_idempotence_properties (x : String) :
    formatSchemaUID (formatSchemaUID x) = formatSchemaUID x ∧
    formatSchemaUID "" = "" ∧
    (x ≠ "" → jsStartsWith x "0x" = false → formatSchemaUID x = "0x" ++ x) ∧
    (jsStartsWith x "0x" = true → formatSchemaUID x = x) := by
  refine ⟨?_, rfl, ?_, ?_⟩
  · by_cases hx : x = ""
    · subst hx; rfl
    · by_cases hs : jsStartsWith x "0x"
      · have h₁ : formatSchemaUID x = x := by simp [formatSchemaUID, hx, hs]
        rw [h₁]
        exact h₁
      · have h₁ : formatSchemaUID x = "0x" ++ x := by simp [formatSchemaUID, hx, hs]
        rw [h₁]
        simp [formatSchemaUID, append_0x_ne_empty x, jsStartsWith_0x_append x]
  · intro hx hs
    simp [formatSchemaUID, hx, hs]
  · intro hs
    by_cases hx : x = ""
    · subst hx
      exact absurd hs (by decide)
    · simp [formatSchemaUID, hx, hs]

/-- Witness for C9 at the concrete inputs `"abc"` and `"0xdef"`. -/
theorem formatSchemaUID_idempotence_properties_witness :
    formatSchemaUID (formatSchemaUID "abc") = formatSchemaUID "abc" ∧
    formatSchemaUID "" = "" ∧
    formatSchemaUID "abc" = "0x" ++ "abc" ∧
    formatSchemaUID "0xdef" = "0xdef" :=
  ⟨(formatSchemaUID_idempotence_properties "abc").1,
   (formatSchemaUID_idempotence_properties "abc").2.1,
   (formatSchemaUID_idempotence_properties "abc").2.2.1 (by decide) (by decide),
   (formatSchemaUID_idempotence_properties "0xdef").2.2.2 (by decide)⟩

/-- C8: within one run, `loadExternalSchema` reads and parses a successfully
loading path at most once: a cache hit is served unchanged with no read; a
miss that loads stores the document under the original relative path (so the
repeated identical call is a pure cache hit), and a missing or unparseable
file returns `null` without caching a sentinel (the repeated call re-attempts
the access). -/
theorem loadExternalSchema_reads_once (env : Env) (p base : String) (st : GenState) :
    (∀ j, cacheFind st.cache p = some j → loadExternalSchema env p base st = (some j, st)) ∧
    (∀ doc, cacheFind st.cache p = none →
      env.fs (env.resolve base p) = FileState.valid doc →
      loadExternalSchema env p base st = (some doc, ⟨cacheSet st.cache p doc, st.reads + 1⟩) ∧
      loadExternalSchema env p base ⟨cacheSet st.cache p doc, st.reads + 1⟩ =
        (some doc, ⟨cacheSet st.cache p doc, st.reads + 1⟩)) ∧
    (cacheFind st.cache p = none → env.fs (env.resolve base p) = FileState.missing →
      loadExternalSchema env p base st = (none, st)) ∧
    (cacheFind st.cache p = none → env.fs (env.resolve base p) = FileState.invalid →
      loadExternalSchema env p base st = (none, ⟨st.cache, st.reads + 1⟩)) := by
  refine ⟨?_, ?_, ?_, ?_⟩
  · intro j hj
    simp [loadExternalSchema, hj]
  · intro doc hmiss hvalid
    constructor
    · simp [loadExternalSchema, hmiss, hvalid]
    · simp [loadExternalSchema, cacheFind_cacheSet_self st.cache p doc]
  · intro hmiss hfs
    simp [loadExternalSchema, hmiss, hfs]
  · intro hmiss hfs
    simp [loadExternalSchema, hmiss, hfs]

/-- Witness for C8 on a concrete environment: first load of `"common.json"`
performs one read and caches; the repeated load is served from the cache. -/
theorem loadExternalSchema_reads_once_witness :
    cacheFind initialState.cache "common.json" = none ∧
    loadExternalSchema constDocEnv "common.json" "schemas" initialState =
      (some (Json.str "doc"), ⟨[("common.json", Json.str "doc")], 1⟩) ∧
    loadExternalSchema constDocEnv "common.json" "schemas"
        ⟨[("common.json", Json.str "doc")], 1⟩ =
      (some (Json.str "doc"), ⟨[("common.json", Json.str "doc")], 1⟩) := by
  have h := (loadExternalSchema_reads_once constDocEnv "common.json" "schemas"
    initialState).2.1 (Json.str "doc") rfl rfl
  exact ⟨rfl, h.1, h.2⟩

/-- C10: `canonicalizeDID`, and therefore `didToIndexAddress`, raises on every
input that does not start with `"did:"` or has fewer than three
colon-separated parts, and on every `did:pkh` DID whose part count is not
exactly five. -/
theorem canonicalizeDID_errors_on_malformed (did : String) :
    (jsStartsWith did "did:" = false →
      exceptIsOk (canonicalizeDID did) = false ∧
      exceptIsOk (didToIndexAddress did) = false) ∧
    ((splitChar ':' did.data).length < 3 →
      exceptIsOk (canonicalizeDID did) = false ∧
      exceptIsOk (didToIndexAddress did) = false) ∧
    (jsStartsWith did "did:" = true →
      (splitChar ':' did.data).getD 1 [] = "pkh".data →
      (splitChar ':' did.data).length ≠ 5 →
      exceptIsOk (canonicalizeDID did) = false ∧
      exceptIsOk (didToIndexAddress did) = false) := by
  have hprop : ∀ d : String, exceptIsOk (canonicalizeDID d) = false →
      exceptIsOk (didToIndexAddress d) = false := by
    intro d h
    cases hc : canonicalizeDID d with
    | ok v => rw [hc] at h; exact absurd h (by simp [exceptIsOk])
    | error e => simp [didToIndexAddress, computeDidHash, hc, exceptIsOk]
  refine ⟨?_, ?_, ?_⟩
  · intro h
    have hc : exceptIsOk (canonicalizeDID did) = false := by
      simp [canonicalizeDID, h, exceptIsOk]
    exact ⟨hc, hprop did hc⟩
  · intro hlen
    have hc : exceptIsOk (canonicalizeDID did) = false := by
      by_cases hs : jsStartsWith did "did:"
      · simp [canonicalizeDID, hs, hlen, exceptIsOk]
      · simp [canonicalizeDID, hs, exceptIsOk]
    exact ⟨hc, hprop did hc⟩
  · intro hs hmethod h5
    have hc : exceptIsOk (canonicalizeDID did) = false := by
      by_cases hlen : (splitChar ':' did.data).length < 3
      · simp [canonicalizeDID, hs, hlen, exceptIsOk]
      · unfold canonicalizeDID
        rw [hs]
        rw [if_neg (by decide)]
        simp only []
        rw [if_neg hlen, hmethod, if_neg (by decide), if_pos rfl, if_pos h5]
        rfl
    exact ⟨hc, hprop did hc⟩

/-- Witness for C10: `"foo"` (no `did:` scheme), `"nocolons"` (fewer than
three parts) and `"did:pkh:eip155:1"` (a four-part `did:pkh`) all make both
entry points raise. -/
theorem canonicalizeDID_errors_on_malformed_witness :
    exceptIsOk (canonicalizeDID "foo") = false ∧
    exceptIsOk (didToIndexAddress "nocolons") = false ∧
    exceptIsOk (canonicalizeDID "did:pkh:eip155:1") = false ∧
    exceptIsOk (didToIndexAddress "did:pkh:eip155:1") = false :=
  ⟨((canonicalizeDID_errors_on_malformed "foo").1 (by decide)).1,
   ((canonicalizeDID_errors_on_malformed "nocolons").2.1 (by decide)).2,
   ((canonicalizeDID_errors_on_malformed "did:pkh:eip155:1").2.2 (by decide)
     (by decide) (by decide)).1,
   ((canonicalizeDID_errors_on_malformed "did:pkh:eip155:1").2.2 (by decide)
     (by decide) (by decide)).2⟩

/-- C2: type-priority conflict resolution: `pickPriorityType` (and through it
`resolveJsonType` on branch candidates) picks by the fixed order
`object > array > string > integer > number > boolean` independently of
candidate order, and falls back to the first candidate verbatim when none
matches; a `oneOf` of `{object, string}` resolves to `"object"` in either
order, also when the object type sits one level inside a branch's
`then.properties`. -/
theorem resolveJsonType_priority_conflict :
    (∀ ts₁ ts₂ : List String,
      (∀ t ∈ priorityOrder, (t ∈ ts₁ ↔ t ∈ ts₂)) →
      (∃ t ∈ priorityOrder, t ∈ ts₁) →
      pickPriorityType (some ts₁) = pickPriorityType (some ts₂)) ∧
    (∀ ts : List String, "object" ∈ ts → pickPriorityType (some ts) = some "object") ∧
    (∀ (pre post : List String) (t : String) (ts : List String),
      priorityOrder = pre ++ t :: post → (∀ o ∈ pre, o ∉ ts) → t ∈ ts →
      pickPriorityType (some ts) = some t) ∧
    (∀ (t : String) (ts : List String), (∀ o ∈ priorityOrder, o ∉ t :: ts) →
      pickPriorityType (some (t :: ts)) = some t) ∧
    resolveJsonType (Json.obj [("oneOf", Json.arr [Json.obj [("type", Json.str "object")],
      Json.obj [("type", Json.str "string")]])]) = some "object" ∧
    resolveJsonType (Json.obj [("oneOf", Json.arr [Json.obj [("type", Json.str "string")],
      Json.obj [("type", Json.str "object")]])]) = some "object" ∧
    resolveJsonType (Json.obj [("oneOf", Json.arr [Json.obj [("then", Json.obj [("properties",
      Json.obj [("a", Json.obj [("type", Json.str "object")])])])],
      Json.obj [("type", Json.str "string")]])]) = some "object" := by
  refine ⟨?_, ?_, ?_, ?_, rfl, rfl, rfl⟩
  · rintro ts₁ ts₂ hiff ⟨t, ht, hmem⟩
    have hmem₂ : t ∈ ts₂ := (hiff t ht).mp hmem
    have h₁ : ¬ ts₁.length = 0 := by
      intro h0
      rw [List.length_eq_zero] at h0
      subst h0
      exact absurd hmem (List.not_mem_nil t)
    have h₂ : ¬ ts₂.length = 0 := by
      intro h0
      rw [List.length_eq_zero] at h0
      subst h0
      exact absurd hmem₂ (List.not_mem_nil t)
    have hfind := find?_contains_congr priorityOrder ts₁ ts₂ hiff
    cases hf : priorityOrder.find? (fun x => ts₁.contains x) with
    | none =>
      exfalso
      have := List.find?_eq_none.mp hf t ht
      rw [contains_eq_decide_mem] at this
      simp [hmem] at this
    | some u =>
      simp only [pickPriorityType, if_neg h₁, if_neg h₂, hf, hfind ▸ hf]
  · intro ts h
    have hne : ¬ ts.length = 0 := by
      intro h0
      rw [List.length_eq_zero] at h0
      subst h0
      exact absurd h (List.not_mem_nil _)
    have hc : ts.contains "object" = true := by
      rw [contains_eq_decide_mem]
      simp [h]
    simp only [pickPriorityType, if_neg hne, priorityOrder, List.find?_cons, hc]
  · intro pre post t ts horder hpre hmem
    have hne : ¬ ts.length = 0 := by
      intro h0
      rw [List.length_eq_zero] at h0
      subst h0
      exact absurd hmem (List.not_mem_nil t)
    have hnone : pre.find? (fun o => ts.contains o) = none := by
      apply List.find?_eq_none.mpr
      intro x hx
      rw [contains_eq_decide_mem]
      simp [hpre x hx]
    have hc : ts.contains t = true := by
      rw [contains_eq_decide_mem]
      simp [hmem]
    have hfind : priorityOrder.find? (fun o => ts.contains o) = some t := by
      rw [horder, List.find?_append, hnone, Option.none_or, List.find?_cons, hc]
    simp only [pickPriorityType, if_neg hne, hfind]
  · intro t ts hno
    have hnone : priorityOrder.find? (fun o => (t :: ts).contains o) = none := by
      apply List.find?_eq_none.mpr
      intro x hx
      rw [contains_eq_decide_mem]
      simp [hno x hx]
    simp only [pickPriorityType, if_neg (by simp : ¬ (t :: ts).length = 0), hnone]
    rfl

/-- Witness for C2 at concrete candidate lists: order-independence of
`{object, string}`, object winning from second position, `integer` beating
`boolean`, and the verbatim fallback for unknown types. -/
theorem resolveJsonType_priority_conflict_witness :
    pickPriorityType (some ["object", "string"]) = pickPriorityType (some ["string", "object"]) ∧
    pickPriorityType (some ["integer", "object"]) = some "object" ∧
    pickPriorityType (some ["boolean", "integer"]) = some "integer" ∧
    pickPriorityType (some ["foo", "bar"]) = some "foo" :=
  ⟨resolveJsonType_priority_conflict.1 ["object", "string"] ["string", "object"]
     (by decide) ⟨"object", by decide, by decide⟩,
   resolveJsonType_priority_conflict.2.1 ["integer", "object"] (by decide),
   resolveJsonType_priority_conflict.2.2.1 ["object", "array", "string"] ["number", "boolean"]
     "integer" ["boolean", "integer"] (by decide) (by decide) (by decide),
   resolveJsonType_priority_conflict.2.2.2.1 "foo" ["bar"] (by decide)⟩

/-- C3 counterexample: the nullable union `["integer","string"]` resolves to
`"string"` (priority pick), not to the first non-null entry `"integer"` the
claim prescribes. -/
theorem resolveJsonType_nullable_union_counterexample :
    resolveJsonType (Json.obj [("type", Json.arr [Json.str "integer", Json.str "string"])]) =
      some "string" ∧
    resolveJsonType (Json.obj [("type", Json.arr [Json.str "integer", Json.str "string"])]) ≠
      some "integer" :=
  ⟨rfl, by decide⟩

/-- C3 (amended): for a `type` array, `resolveJsonType` applies the fixed
priority order to the lowercased entries (first entry verbatim when none
matches): `"null"` is discarded whenever another entry matches a priority
type — `[t,"null"]` and `["null",t]` resolve to `t` for every priority type —
an all-null array yields `"null"`, and `["integer","string"]` yields
`"string"`; the legacy BAS mapper instead takes the first non-null entry
(`["integer","string"]` maps to `uint256`). -/
theorem resolveJsonType_nullable_union_amended :
    (∀ t ∈ priorityOrder,
      resolveJsonType (Json.obj [("type", Json.arr [Json.str t, Json.str "null"])]) = some t ∧
      resolveJsonType (Json.obj [("type", Json.arr [Json.str "null", Json.str t])]) = some t) ∧
    resolveJsonType (Json.obj [("type", Json.arr [Json.str "null", Json.str "null"])]) =
      some "null" ∧
    resolveJsonType (Json.obj [("type", Json.arr [Json.str "integer", Json.str "string"])]) =
      some "string" ∧
    (BasGen.mapJsonSchemaPropertyToAbiType emptyEnv
      (Json.obj [("type", Json.arr [Json.str "integer", Json.str "string"])])
      "n" none none initialState).1 = some "uint256" := by
  refine ⟨?_, rfl, rfl, rfl⟩
  intro t ht
  fin_cases ht <;> exact ⟨rfl, rfl⟩

/-- Witness for C3 (amended) at the null-discarding law's concrete inputs. -/
theorem resolveJsonType_nullable_union_amended_witness :
    resolveJsonType (Json.obj [("type", Json.arr [Json.str "string", Json.str "null"])]) =
      some "string" ∧
    resolveJsonType (Json.obj [("type", Json.arr [Json.str "null", Json.str "string"])]) =
      some "string" :=
  ⟨(resolveJsonType_nullable_union_amended.1 "string" (by decide)).1,
   (resolveJsonType_nullable_union_amended.1 "string" (by decide)).2⟩

/-- C7 counterexample: on the anchored pattern `^0x[a-fA-F0-9]{64}$` — whose
text does not contain a literal `0x` followed by 64 hex characters — the
EAS-side `jsonTypeToAbi` containment check fails and the mapping is
`"string"`, not the claimed `"bytes32"`. -/
theorem jsonTypeToAbi_anchored_pattern_counterexample :
    jsonTypeToAbi (some "string") "hash" (some "^0x[a-fA-F0-9]{64}$") none = "string" ∧
    jsonTypeToAbi (some "string") "hash" (some "^0x[a-fA-F0-9]{64}$") none ≠ "bytes32" :=
  ⟨rfl, by decide⟩

/-- C7 (amended): `jsonTypeToAbi` maps a `string`-typed property to `bytes32`
exactly when the pattern text contains a literal `0x` followed by 64 hex
characters (the permissive containment semantics, characterized below), so
the anchored hash pattern maps to `"string"`; the `{hash: pattern
"^0x[a-fA-F0-9]{64}$"} → bytes32 hash` example holds only in the BAS-variant
mapper, which compares the pattern for exact string equality. -/
theorem jsonTypeToAbi_hex_pattern_amended :
    (∀ l : List Char, containsHex64 l = true ↔
      ∃ l₁ l₂ l₃, l = l₁ ++ ('0' :: 'x' :: (l₂ ++ l₃)) ∧ l₂.length = 64 ∧
        ∀ c ∈ l₂, isHexDigitChar c = true) ∧
    (∀ (propName p : String), patternHasHex64 (some p) = true →
      jsonTypeToAbi (some "string") propName (some p) none = "bytes32") ∧
    (∀ (propName p : String), patternHasHex64 (some p) = false →
      jsonTypeToAbi (some "string") propName (some p) none = "string") ∧
    jsonTypeToAbi (some "string") "hash" (some "^0x[a-fA-F0-9]{64}$") none = "string" ∧
    (BasGen.mapJsonSchemaPropertyToAbiType emptyEnv
      (Json.obj [("type", Json.str "string"), ("pattern", Json.str "^0x[a-fA-F0-9]{64}$")])
      "hash" none none initialState).1 = some "bytes32" := by
  refine ⟨containsHex64_iff, ?_, ?_, rfl, rfl⟩
  · intro propName p h
    have e : jsonTypeToAbi (some "string") propName (some p) none =
        if patternHasHex64 (some p) then "bytes32" else "string" := rfl
    rw [e, if_pos h]
  · intro propName p h
    have e : jsonTypeToAbi (some "string") propName (some p) none =
        if patternHasHex64 (some p) then "bytes32" else "string" := rfl
    rw [e, if_neg (by simp [h])]

/-- Witness for C7 (amended): a pattern containing a literal 64-hex-character
constant maps to `bytes32`; the anchored hash pattern maps to `string`. -/
theorem jsonTypeToAbi_hex_pattern_amended_witness :
    jsonTypeToAbi (some "string") "hash"
      (some "0xaaaaaaaaaaaaaaaaaaaaaaaaaaaaaaaaaaaaaaaaaaaaaaaaaaaaaaaaaaaaaaaa") none =
      "bytes32" ∧
    jsonTypeToAbi (some "string") "hash" (some "^0x[a-fA-F0-9]{64}$") none = "string" :=
  ⟨jsonTypeToAbi_hex_pattern_amended.2.1 "hash"
     "0xaaaaaaaaaaaaaaaaaaaaaaaaaaaaaaaaaaaaaaaaaaaaaaaaaaaaaaaaaaaaaaaa" (by decide),
   jsonTypeToAbi_hex_pattern_amended.2.2.1 "hash" "^0x[a-fA-F0-9]{64}$" (by decide)⟩


/-- C5: order preservation and formatting: `buildSchemaString` joins the
surviving `"type name"` pairs with `", "`; the emitted field names form a
subsequence of the declared property order (dropped fields are omitted,
survivors keep their relative order); absent or empty properties yield `""`;
on the two-field scenario the output is `"string subject, uint256 score"`. -/
theorem buildSchemaString_order_preservation (env : Env) (props : List (String × Json))
    (cs : Json) (bd : String) (st : GenState) :
    (EasGen.buildSchemaString env (some props) cs bd st).1 =
      EasGen.joinComma ((EasGen.emittedFields env props cs bd st).1.map
        fun e => e.2 ++ " " ++ e.1) ∧
    ((EasGen.emittedFields env props cs bd st).1.map Prod.fst).Sublist
      (props.map Prod.fst) ∧
    (EasGen.buildSchemaString env none cs bd st).1 = "" ∧
    (EasGen.buildSchemaString env (some []) cs bd st).1 = "" ∧
    (EasGen.buildSchemaString env
      (some [("subject", Json.obj [("type", Json.str "string")]),
             ("score", Json.obj [("type", Json.str "integer")])]) cs bd st).1 =
      "string subject, uint256 score" := by
  refine ⟨?_, emittedFields_names_sublist env props cs bd st, rfl, rfl, rfl⟩
  simp [EasGen.buildSchemaString, buildFields_eq_emittedFields]

/-- C4 counterexample: a field tagged `"unused"` does not always appear: an
`"unused"`-tagged array property without `items` is dropped by the type
mapper and the schema string is empty (no `reserved` entry is emitted). -/
theorem buildSchemaString_unused_not_always_included :
    (EasGen.buildSchemaString emptyEnv
      (some [("reserved", Json.obj [("type", Json.str "array"),
        ("x-oma3-skip-reason", Json.str "unused")])])
      (Json.obj []) "." initialState).1 = "" ∧
    ((EasGen.emittedFields emptyEnv
      [("reserved", Json.obj [("type", Json.str "array"),
        ("x-oma3-skip-reason", Json.str "unused")])]
      (Json.obj []) "." initialState).1.map Prod.fst) = [] :=
  ⟨rfl, rfl⟩

/-- C4 (amended): a field whose resolved property carries skip-reason
`"metadata"` or `"eas"` never appears among the emitted fields, regardless of
its other content; a field tagged `"unused"` is never excluded by the skip
logic — it appears whenever its ABI type mapping succeeds (like any untagged
field, it is dropped when the mapping yields `null`); the schema string is
the `", "`-join of the emitted fields. -/
theorem buildSchemaString_skip_include (env : Env) (props : List (String × Json))
    (cs : Json) (bd : String) (st : GenState) (k : String) :
    ((∀ v, (k, v) ∈ props → ∀ st' : GenState,
        EasGen.isServiceSkip (resolveProperty env v cs bd st').1 = true) →
      k ∉ (EasGen.emittedFields env props cs bd st).1.map Prod.fst) ∧
    (∀ v, (k, v) ∈ props →
      (∀ st' : GenState,
        ((resolveProperty env v cs bd st').1.get? "x-oma3-skip-reason") =
          some (Json.str "unused")) →
      (∀ st' : GenState,
        (EasGen.mapJsonSchemaPropertyToAbiType env (resolveProperty env v cs bd st').1 k
          (some cs) (some bd) (resolveProperty env v cs bd st').2).1.isSome = true) →
      k ∈ (EasGen.emittedFields env props cs bd st).1.map Prod.fst) ∧
    (EasGen.buildSchemaString env (some props) cs bd st).1 =
      EasGen.joinComma ((EasGen.emittedFields env props cs bd st).1.map
        fun e => e.2 ++ " " ++ e.1) := by
  refine ⟨?_, ?_, ?_⟩
  · intro hall
    exact emittedFields_not_mem_of_skipped env cs bd k props st hall
  · intro v hv hunused hmap
    exact emittedFields_mem_of_unused env cs bd k v hunused hmap props st hv
  · simp [EasGen.buildSchemaString, buildFields_eq_emittedFields]

/-- Witness for C4 on concrete fields: a `"metadata"`-tagged field is absent
from the emitted names and an `"unused"`-tagged string field is present. -/
theorem buildSchemaString_skip_include_witness :
    "m" ∉ (EasGen.emittedFields emptyEnv
      [("m", Json.obj [("type", Json.str "string"),
         ("x-oma3-skip-reason", Json.str "metadata")]),
       ("u", Json.obj [("type", Json.str "string"),
         ("x-oma3-skip-reason", Json.str "unused")])]
      (Json.obj []) "." initialState).1.map Prod.fst ∧
    "u" ∈ (EasGen.emittedFields emptyEnv
      [("m", Json.obj [("type", Json.str "string"),
         ("x-oma3-skip-reason", Json.str "metadata")]),
       ("u", Json.obj [("type", Json.str "string"),
         ("x-oma3-skip-reason", Json.str "unused")])]
      (Json.obj []) "." initialState).1.map Prod.fst := by
  constructor
  · refine (buildSchemaString_skip_include emptyEnv _ (Json.obj []) "." initialState "m").1 ?_
    intro v hv st'
    simp only [List.mem_cons, List.not_mem_nil, or_false] at hv
    rcases hv with h₁ | h₂
    · rw [(Prod.mk.injEq ..).mp h₁ |>.2]
      rfl
    · exact absurd ((Prod.mk.injEq ..).mp h₂).1 (by decide)
  · refine (buildSchemaString_skip_include emptyEnv _ (Json.obj []) "." initialState "u").2.1
      (Json.obj [("type", Json.str "string"), ("x-oma3-skip-reason", Json.str "unused")])
      (by simp) (fun st' => rfl) (fun st' => rfl)
